import Mathlib

/-!
# Verification of the go-validation constraint engine

A shallow embedding of the validation library's core: tag parsing
(`parseValidationRules`, `ParseRuleString`, `ParseRangeParams`,
`ParseIntParam`, `ParseParam`), the reflection-strategy traversal of
`UnifiedValidator` (`validateWithReflection`, `validateFieldWithReflection`,
the built-in rule table of `registerBuiltInValidators`), the field-level
rule functions of `builtin_rules.go` (`hasMinOf`, `hasMaxOf`, `isLteField`,
`compareFields`, `isRequiredIf`, `isRequiredUnless`, `isRequiredWith`,
`isRequiredWithout`, `IsEmpty`, `HasValue`, `getString`, `ExtractType`,
`getStructFieldOK`) and the cached rule registry of `rules` (`GetRule`,
`RangeFactory`).

Modelling conventions:
* Go values reachable by the reflection traversal are the inductive `Value`
  (string, int64, uint64, float64, bool, nil pointer, pointer, slice,
  struct).  Kinds not exercised by any constraint in scope (map, chan,
  array, func) are omitted; the corresponding `switch` arms in the source
  fall into the `default` branches that the embedding keeps.
* Go `float64` fields are modelled as exact rationals; the only float
  operations the embedded code performs are ordering comparisons and the
  `int64(f)` conversion (truncation toward zero), both of which are exact
  on the rationals used in the theorems below.
* Go strings are Lean `String`s manipulated through explicit `List Char`
  recursion so that every function reduces definitionally; `len(s)` is the
  character count, which agrees with Go's byte count on the ASCII data
  appearing in every theorem.
* A Go `map[string]string` is represented canonically as a key-sorted,
  duplicate-free association list; insertion overwrites, mirroring map
  assignment.  Go's unspecified map iteration order is modelled by
  quantifying over an arbitrary enumeration that is a permutation of the
  entries.
-/

namespace Validation

/-! ## Go string primitives (`strings` / `strconv` subset used by the code) -/

/-- `strings.Split` with a one-character separator, on character lists. -/
def chSplit (sep : Char) : List Char → List (List Char)
  | [] => [[]]
  | c :: rest =>
    if c = sep then [] :: chSplit sep rest
    else
      match chSplit sep rest with
      | [] => [[c]]
      | s :: ss => (c :: s) :: ss

/-- Rejoin pieces with the separator (used to model `strings.SplitN`). -/
def chJoin (sep : Char) : List (List Char) → List Char
  | [] => []
  | [s] => s
  | s :: rest => s ++ sep :: chJoin sep rest

/-- `strings.Split(s, sep)` for a one-character separator. -/
def goSplit (s : String) (sep : Char) : List String :=
  (chSplit sep s.data).map String.mk

/-- `strings.SplitN(s, sep, 2)`: split at the first occurrence only. -/
def goSplitN2 (s : String) (sep : Char) : List String :=
  match chSplit sep s.data with
  | [] => [s]
  | [one] => [String.mk one]
  | first :: rest => [String.mk first, String.mk (chJoin sep rest)]

/-- The ASCII white-space set `strings.TrimSpace` strips (the Unicode cases
do not occur in tag text). -/
def isGoSpace (c : Char) : Bool :=
  c = ' ' || c = '\t' || c = '\n' || c = '\r'

/-- Drop leading white space. -/
def chTrimLeft : List Char → List Char
  | [] => []
  | c :: rest => if isGoSpace c then chTrimLeft rest else c :: rest

/-- `strings.TrimSpace`. -/
def goTrim (s : String) : String :=
  String.mk ((chTrimLeft ((chTrimLeft s.data.reverse)).reverse))

/-- Whether the string contains the character (`strings.Contains` with a
one-character needle). -/
def goContainsChar (s : String) (c : Char) : Bool :=
  s.data.any (fun d => d = c)

/-- Decimal digit value. -/
def digitVal (c : Char) : Option Nat :=
  if '0' ≤ c ∧ c ≤ '9' then some (c.toNat - '0'.toNat) else none

/-- Accumulate decimal digits; `none` when a non-digit appears. -/
def parseDigitsAux : List Char → Nat → Option Nat
  | [], acc => some acc
  | c :: rest, acc =>
    match digitVal c with
    | none => none
    | some d => parseDigitsAux rest (acc * 10 + d)

/-- Parse a non-empty all-digit string. -/
def parseDigits : List Char → Option Nat
  | [] => none
  | cs => parseDigitsAux cs 0

/-- `strconv.ParseInt(s, 10, 64)` (also `strconv.Atoi` on 64-bit targets):
optional sign, decimal digits, `int64` range check. -/
def goParseInt (s : String) : Option Int :=
  let mag : List Char → Bool → Option Int := fun cs neg =>
    match parseDigits cs with
    | none => none
    | some n =>
      if neg then
        if (n : Int) ≤ 2 ^ 63 then some (-(n : Int)) else none
      else
        if (n : Int) ≤ 2 ^ 63 - 1 then some (n : Int) else none
  match s.data with
  | '+' :: rest => mag rest false
  | '-' :: rest => mag rest true
  | cs => mag cs false

/-- The decimal subset of `strconv.ParseFloat(s, 64)` the rule parameters
use: optional sign, digits, optional fraction.  Modelled exactly over ℚ
(the parameters appearing in tags are exactly representable). -/
def goParseFloat (s : String) : Option ℚ :=
  let core : List Char → Option ℚ := fun cs =>
    match chSplit '.' cs with
    | [whole] =>
      match parseDigits whole with
      | none => none
      | some n => some (n : ℚ)
    | [whole, frac] =>
      match parseDigits whole, parseDigits frac with
      | some n, some f => some ((n : ℚ) + (f : ℚ) / ((10 : ℚ) ^ frac.length))
      | _, _ => none
    | _ => none
  match s.data with
  | '+' :: rest => core rest
  | '-' :: rest => (core rest).map (fun q => -q)
  | cs => core cs

/-- Go byte-lexicographic string comparison (`<` on `string`); UTF-8
preserves code-point order, so comparing scalar values is faithful. -/
def chLt : List Char → List Char → Bool
  | [], [] => false
  | [], _ :: _ => true
  | _ :: _, [] => false
  | a :: as_, b :: bs =>
    if a.toNat < b.toNat then true
    else if b.toNat < a.toNat then false
    else chLt as_ bs

/-- `a < b` on Go strings. -/
def strLt (a b : String) : Bool := chLt a.data b.data

/-- `strings.Join(parts, ", ")` as used by the `oneof` error message. -/
def joinComma : List String → String
  | [] => ""
  | [s] => s
  | s :: rest => s ++ ", " ++ joinComma rest

/-- `strings.Join(parts, "; ")` as used by `ValidationErrors.Error`. -/
def joinSemi : List String → String
  | [] => ""
  | [s] => s
  | s :: rest => s ++ "; " ++ joinSemi rest

/-- `strings.HasPrefix(s, p)` (spec: rule names beginning with
`required`). -/
def chStarts : List Char → List Char → Bool
  | [], _ => true
  | _ :: _, [] => false
  | p :: ps, c :: cs => if p = c then chStarts ps cs else false

/-- Whether `pre` is a leading segment of `s`. -/
def strStarts (pre s : String) : Bool := chStarts pre.data s.data

/-! ## Tag and parameter parsing (`validator.go`, `field_level.go`,
`rules/factory.go`) -/

/-- One comma segment of a tag: trim, drop empties, split at the first `=`
(validator.go `parseValidationRules` loop body). -/
def parseSegment (part : String) : Option (String × String) :=
  let p := goTrim part
  if p = "" then none
  else if goContainsChar p '=' then
    let kv := goSplitN2 p '='
    some (goTrim (kv.headD ""), goTrim (kv.getD 1 ""))
  else
    some (p, "")

/-- Sorted-insert with overwrite: the canonical representation of Go map
assignment `rules[k] = v` (keys ordered by `String`'s lexicographic
order). -/
def mapInsert (k v : String) : List (String × String) → List (String × String)
  | [] => [(k, v)]
  | (k', v') :: rest =>
    if k.data < k'.data then (k, v) :: (k', v') :: rest
    else if k = k' then (k, v) :: rest
    else (k', v') :: mapInsert k v rest

/-- `parseValidationRules` (validator.go): builds the `map[string]string` of
rules from the comma-separated tag.  The result is the canonical (key-sorted,
duplicate-free) association list representing that map: declaration order is
not part of the map value, and duplicate rule names collapse, the last
parameter winning. -/
def parseValidationRules (tag : String) : List (String × String) :=
  (goSplit tag ',').foldl
    (fun acc part =>
      match parseSegment part with
      | none => acc
      | some (k, v) => mapInsert k v acc)
    []

/-- The spec-side reading of the same sentence, used only for the refinement
comparison of claim C1: "an ordered list of `(name, parameter?)` pairs parsed
from a field's tag text, comma-separated, with `name=parameter` syntax".
This definition follows the spec's words, not the source. -/
def specOrderedConstraintDecl (tag : String) : List (String × String) :=
  (goSplit tag ',').filterMap parseSegment

/-- `ParseRuleString` (rules/factory.go): split a rule string at the first
`=`. -/
def ParseRuleString (ruleString : String) : Except String (String × String) :=
  if ruleString = "" then .error "empty rule string"
  else
    match goSplitN2 ruleString '=' with
    | [one] => .ok (one, "")
    | [a, b] => .ok (a, b)
    | _ => .error "empty rule string"

/-- The split step of `ParseRangeParams`: `:` takes precedence over `,`;
neither separator present gives no parts (the length-2 check fails). -/
def rangeSplit (params : String) : List String :=
  if goContainsChar params ':' then goSplitN2 params ':'
  else if goContainsChar params ',' then goSplitN2 params ','
  else []

/-- `ParseRangeParams` (rules/factory.go): split the parameter on `:` or `,`
into min and max, parse each as an `int64`, and reject out-of-order
bounds. -/
def ParseRangeParams (params : String) : Except String (Int × Int) :=
  if params = "" then .error "missing range parameters"
  else
    match rangeSplit params with
    | [a, b] =>
      match goParseInt (goTrim a) with
      | none => .error ("invalid min value: " ++ a)
      | some mn =>
        match goParseInt (goTrim b) with
        | none => .error ("invalid max value: " ++ b)
        | some mx =>
          if mn > mx then
            .error ("min (" ++ toString mn ++ ") cannot be greater than max (" ++ toString mx ++ ")")
          else .ok (mn, mx)
    | _ => .error ("invalid range format: " ++ params)

/-- `ParseIntParam` (field_level.go): empty parameter parses to 0. -/
def ParseIntParam (param : String) : Option Int :=
  if param = "" then some 0 else goParseInt param

/-- `ParseParam` (field_level.go): a `:`-pair stays untrimmed, otherwise
split on commas and trim each piece; the Go function never returns an
error. -/
def ParseParam (param : String) : List String :=
  if param = "" then []
  else if goContainsChar param ':' ∧ (goSplit param ':').length = 2 then
    goSplit param ':'
  else
    (goSplit param ',').map goTrim

/-! ## The reflected value model -/

mutual
/-- A Go value as seen by the reflection traversal.  `vInt`/`vUint`/`vFloat`
stand for the int64/uint64/float64 kind families; `vNil` is a nil pointer
(or nil interface).  Map, chan, array and func kinds are not constructed by
any theorem below and fall into the source's `default` switch arms. -/
inductive Value where
  | vStr (s : String)
  | vInt (n : Int)
  | vUint (n : Nat)
  | vFloat (q : ℚ)
  | vBool (b : Bool)
  | vNil
  | vPtr (v : Value)
  | vSlice (elems : ValueList)
  | vStruct (fields : FieldList)

/-- Slice elements. -/
inductive ValueList where
  | nil
  | cons (v : Value) (rest : ValueList)

/-- Struct fields in declaration order: name, `validate` tag, value. -/
inductive FieldList where
  | nil
  | cons (name tag : String) (v : Value) (rest : FieldList)
end

/-- `reflect.Kind` restricted to the modelled kinds. -/
inductive GoKind where
  | kString | kInt | kUint | kFloat | kBool | kPtr | kSlice | kStruct
deriving DecidableEq

/-- `Value.Kind()`. -/
def kindOf : Value → GoKind
  | .vStr _ => .kString
  | .vInt _ => .kInt
  | .vUint _ => .kUint
  | .vFloat _ => .kFloat
  | .vBool _ => .kBool
  | .vNil => .kPtr
  | .vPtr _ => .kPtr
  | .vSlice _ => .kSlice
  | .vStruct _ => .kStruct

/-- `reflect.Kind.String()` for the error messages. -/
def kindName : GoKind → String
  | .kString => "string"
  | .kInt => "int"
  | .kUint => "uint"
  | .kFloat => "float64"
  | .kBool => "bool"
  | .kPtr => "ptr"
  | .kSlice => "slice"
  | .kStruct => "struct"

/-- Slice length. -/
def lenVL : ValueList → Nat
  | .nil => 0
  | .cons _ rest => lenVL rest + 1

/-- `Value.FieldByName`: first declared field with the given name
(`none` models the invalid zero `reflect.Value`). -/
def findField : FieldList → String → Option Value
  | .nil, _ => none
  | .cons n _ v rest, name => if n = name then some v else findField rest name

/-- `Value.Int()` (only called on int kinds; Go panics otherwise, which no
embedded call site reaches). -/
def goInt : Value → Int
  | .vInt n => n
  | _ => 0

/-- `Value.Uint()`. -/
def goUint : Value → Nat
  | .vUint n => n
  | _ => 0

/-- `Value.Float()`. -/
def goFloat : Value → ℚ
  | .vFloat q => q
  | _ => 0

/-- `Value.String()` of a string-kind value. -/
def goStr : Value → String
  | .vStr s => s
  | _ => ""

/-- `Value.Bool()`. -/
def goBool : Value → Bool
  | .vBool b => b
  | _ => false

/-- `int64(u)` for a Go `uint64`: two's-complement wrap. -/
def int64OfUint64 (n : Nat) : Int :=
  if n < 2 ^ 63 then (n : Int) else (n : Int) - 2 ^ 64

/-- `int64(f)` for a Go `float64`: truncation toward zero. -/
def truncQ (q : ℚ) : Int :=
  if q < 0 then ⌈q⌉ else ⌊q⌋

/-! ## Field-level context (`field_level.go`) -/

/-- The `fieldLevel` context: the fields the embedded rule functions read
(`top`, `structField` and `tag` are never read by them and are omitted). -/
structure FL where
  parent : Value
  field : Value
  fieldName : String
  param : String

/-- `ExtractType` (field_level.go): recursively dereference pointers and
interfaces; a nil pointer reports `ok = false`. -/
def ExtractType : Value → Value × GoKind × Bool
  | .vNil => (.vNil, .kPtr, false)
  | .vPtr v => ExtractType v
  | v => (v, kindOf v, true)

mutual
/-- `reflect.Value.IsZero` on the modelled kinds (struct: all fields
zero; a non-nil slice is never zero). -/
def isZeroV : Value → Bool
  | .vStr s => s = ""
  | .vInt n => n = 0
  | .vUint n => n = 0
  | .vFloat q => q = 0
  | .vBool b => b = false
  | .vNil => true
  | .vPtr _ => false
  | .vSlice _ => false
  | .vStruct fs => isZeroFL fs

/-- All struct fields zero. -/
def isZeroFL : FieldList → Bool
  | .nil => true
  | .cons _ _ v rest => isZeroV v && isZeroFL rest
end

/-- `IsEmpty` (field_level.go): zero-length string/collection or nil
pointer/interface; scalars and structs are never "empty" here. -/
def IsEmpty (fl : FL) : Bool :=
  match fl.field with
  | .vStr s => s.length = 0
  | .vSlice l => lenVL l = 0
  | .vNil => true
  | .vPtr _ => false
  | _ => false

/-- `HasValue` (field_level.go): not empty and not the zero value. -/
def HasValue (fl : FL) : Bool :=
  !IsEmpty fl && !isZeroV fl.field

/-- `getString` (builtin_rules.go): safe string rendering of scalar kinds.
Non-integral floats are rendered as `num/den` (Go prints decimal notation;
no claim exercises a non-integral float here). -/
def getString (field : Value) : String :=
  match field with
  | .vStr s => s
  | .vInt n => toString n
  | .vUint n => toString n
  | .vFloat q => if q.den = 1 then toString q.num else toString q.num ++ "/" ++ toString q.den
  | .vBool b => toString b
  | _ => ""

/-- `getStructFieldOK` (builtin_rules.go, the two-argument helper): extract
the parent down to a struct, look the sibling up by name, and extract the
sibling; reports the sibling's extracted value and kind. -/
def getStructFieldOKAt (val : Value) (fieldName : String) : Option (Value × GoKind) :=
  match ExtractType val with
  | (v, k, ok) =>
    if !ok ∨ k ≠ .kStruct then none
    else
      match v with
      | .vStruct fs =>
        match findField fs fieldName with
        | none => none
        | some f =>
          match ExtractType f with
          | (f', k', ok') => if ok' then some (f', k') else none
      | _ => none

/-- `FieldLevel.GetStructFieldOK`: sibling lookup in the parent using the
rule parameter as the name. -/
def GetStructFieldOK (fl : FL) : Option (Value × GoKind) :=
  getStructFieldOKAt fl.parent fl.param

/-- `compareFields` (builtin_rules.go): kind-dispatched ordering;
`expected = 1` means `>`, `-1` means `<`, and any other value (the callers
pass 0) means `>=`.  The value accessors follow the dispatched kind, exactly
as the source calls `field1.Int()` etc. -/
def compareFields (field1 field2 : Value) (kind : GoKind) (expected : Int) : Bool :=
  match kind with
  | .kInt =>
    if expected = 1 then goInt field1 > goInt field2
    else if expected = -1 then goInt field1 < goInt field2
    else goInt field1 ≥ goInt field2
  | .kUint =>
    if expected = 1 then goUint field1 > goUint field2
    else if expected = -1 then goUint field1 < goUint field2
    else goUint field1 ≥ goUint field2
  | .kFloat =>
    if expected = 1 then goFloat field1 > goFloat field2
    else if expected = -1 then goFloat field1 < goFloat field2
    else goFloat field1 ≥ goFloat field2
  | .kString =>
    if expected = 1 then strLt (goStr field2) (goStr field1)
    else if expected = -1 then strLt (goStr field1) (goStr field2)
    else !strLt (goStr field1) (goStr field2)
  | _ => false

/-! ## Built-in rule functions (`builtin_rules.go`) -/

/-- `isRequired`. -/
def isRequired (fl : FL) : Bool := HasValue fl

/-- `isOmitEmpty`: always passes; the traversal engine gives the marker its
meaning. -/
def isOmitEmpty (_ : FL) : Bool := true

/-- `hasMinOf`: minimum value/length; float fields are truncated to `int64`
before the comparison. -/
def hasMinOf (fl : FL) : Bool :=
  match ParseIntParam fl.param with
  | none => false
  | some mn =>
    match fl.field with
    | .vStr s => mn ≤ (s.length : Int)
    | .vSlice l => mn ≤ (lenVL l : Int)
    | .vInt n => mn ≤ n
    | .vUint n => mn ≤ int64OfUint64 n
    | .vFloat q => mn ≤ truncQ q
    | _ => false

/-- `hasMaxOf`: maximum value/length; float fields are truncated to `int64`
before the comparison. -/
def hasMaxOf (fl : FL) : Bool :=
  match ParseIntParam fl.param with
  | none => false
  | some mx =>
    match fl.field with
    | .vStr s => (s.length : Int) ≤ mx
    | .vSlice l => (lenVL l : Int) ≤ mx
    | .vInt n => n ≤ mx
    | .vUint n => int64OfUint64 n ≤ mx
    | .vFloat q => truncQ q ≤ mx
    | _ => false

/-- `hasLengthOf`: exact length of strings and collections. -/
def hasLengthOf (fl : FL) : Bool :=
  match ParseIntParam fl.param with
  | none => false
  | some l =>
    match fl.field with
    | .vStr s => (s.length : Int) = l
    | .vSlice vl => (lenVL vl : Int) = l
    | _ => false

/-- `isGtField`: strictly greater than the named sibling. -/
def isGtField (fl : FL) : Bool :=
  match GetStructFieldOK fl with
  | none => false
  | some (f, k) => compareFields fl.field f k 1

/-- `isGteField` (registered under the misspelt name `gtefiled`). -/
def isGteField (fl : FL) : Bool :=
  match GetStructFieldOK fl with
  | none => false
  | some (f, k) => compareFields fl.field f k 0

/-- `isLtField`: strictly less than the named sibling. -/
def isLtField (fl : FL) : Bool :=
  match GetStructFieldOK fl with
  | none => false
  | some (f, k) => compareFields fl.field f k (-1)

/-- `isLteField`: the source computes
`compareFields(…, 0) || compareFields(…, -1)`, i.e. `(a ≥ b) || (a < b)`. -/
def isLteField (fl : FL) : Bool :=
  match GetStructFieldOK fl with
  | none => false
  | some (f, k) => compareFields fl.field f k 0 || compareFields fl.field f k (-1)

/-- `isRequiredIf`: required when the named sibling equals the expected
value; a missing sibling means "not required". -/
def isRequiredIf (fl : FL) : Bool :=
  let params := ParseParam fl.param
  if params.length < 2 then false
  else
    let fieldName := params.headD ""
    let expectedValue := params.getD 1 ""
    match getStructFieldOKAt fl.parent fieldName with
    | none => true
    | some (f, _) =>
      if getString f = expectedValue then HasValue fl else true

/-- `isRequiredUnless`: required unless the named sibling equals the
expected value; a missing sibling means "required". -/
def isRequiredUnless (fl : FL) : Bool :=
  let params := ParseParam fl.param
  if params.length < 2 then false
  else
    let fieldName := params.headD ""
    let expectedValue := params.getD 1 ""
    match getStructFieldOKAt fl.parent fieldName with
    | none => HasValue fl
    | some (f, _) =>
      if getString f ≠ expectedValue then HasValue fl else true

/-- `isRequiredWith`: required when the named sibling is non-empty; a
missing sibling means "not required". -/
def isRequiredWith (fl : FL) : Bool :=
  match getStructFieldOKAt fl.parent fl.param with
  | none => true
  | some (f, _) =>
    if !IsEmpty { parent := .vNil, field := f, fieldName := "", param := "" } then HasValue fl
    else true

/-- `isRequiredWithout`: required when the named sibling is empty; a
missing sibling means "required". -/
def isRequiredWithout (fl : FL) : Bool :=
  match getStructFieldOKAt fl.parent fl.param with
  | none => HasValue fl
  | some (f, _) =>
    if IsEmpty { parent := .vNil, field := f, fieldName := "", param := "" } then HasValue fl
    else true

/-! ## The unified validator's reflection strategy (`validator.go`) -/

/-- A collected validation error: the two-argument `ErrorCollector.Add`
records a field name and a message. -/
structure VError where
  field : String
  message : String
deriving DecidableEq, Repr

/-- `ValidatorConfig` restricted to the options the reflection strategy
reads. -/
structure VConfig where
  failFast : Bool
  allowUnknownTags : Bool
deriving DecidableEq, Repr

/-- The `required` entry of `registerBuiltInValidators` (validator.go): the
kind switch handles strings, nil-able kinds and arrays only; every other
kind falls through to `return nil`. -/
def requiredValidator (fieldName : String) (value : Value) (_rule : String) : Option String :=
  match value with
  | .vStr s => if s = "" then some ("field '" ++ fieldName ++ "' is required") else none
  | .vNil => some ("field '" ++ fieldName ++ "' is required")
  | .vPtr _ => none
  | .vSlice _ => none
  | _ => none

/-- The `minlen` entry: `strconv.Atoi` on the parameter, then a length
check on strings and collections. -/
def minlenValidator (fieldName : String) (value : Value) (rule : String) : Option String :=
  match goParseInt rule with
  | none => some ("invalid minlen rule '" ++ rule ++ "' for field '" ++ fieldName ++ "'")
  | some ml =>
    match value with
    | .vStr s =>
      if (s.length : Int) < ml then
        some ("field '" ++ fieldName ++ "' must be at least " ++ toString ml ++ " characters/elements long")
      else none
    | .vSlice l =>
      if (lenVL l : Int) < ml then
        some ("field '" ++ fieldName ++ "' must be at least " ++ toString ml ++ " characters/elements long")
      else none
    | v => some ("minlen validation not supported for type " ++ kindName (kindOf v))

/-- The `maxlen` entry. -/
def maxlenValidator (fieldName : String) (value : Value) (rule : String) : Option String :=
  match goParseInt rule with
  | none => some ("invalid maxlen rule '" ++ rule ++ "' for field '" ++ fieldName ++ "'")
  | some ml =>
    match value with
    | .vStr s =>
      if (s.length : Int) > ml then
        some ("field '" ++ fieldName ++ "' must be at most " ++ toString ml ++ " characters/elements long")
      else none
    | .vSlice l =>
      if (lenVL l : Int) > ml then
        some ("field '" ++ fieldName ++ "' must be at most " ++ toString ml ++ " characters/elements long")
      else none
    | v => some ("maxlen validation not supported for type " ++ kindName (kindOf v))

/-- The `min` entry: `strconv.ParseFloat` on the parameter, numeric kinds
converted to float64 and compared. -/
def minValidator (fieldName : String) (value : Value) (rule : String) : Option String :=
  match goParseFloat rule with
  | none => some ("invalid min rule '" ++ rule ++ "' for field '" ++ fieldName ++ "'")
  | some mn =>
    match value with
    | .vInt n => if (n : ℚ) < mn then some ("field '" ++ fieldName ++ "' must be at least " ++ rule) else none
    | .vUint n => if (n : ℚ) < mn then some ("field '" ++ fieldName ++ "' must be at least " ++ rule) else none
    | .vFloat q => if q < mn then some ("field '" ++ fieldName ++ "' must be at least " ++ rule) else none
    | v => some ("min validation not supported for type " ++ kindName (kindOf v))

/-- The `max` entry. -/
def maxValidator (fieldName : String) (value : Value) (rule : String) : Option String :=
  match goParseFloat rule with
  | none => some ("invalid max rule '" ++ rule ++ "' for field '" ++ fieldName ++ "'")
  | some mx =>
    match value with
    | .vInt n => if (n : ℚ) > mx then some ("field '" ++ fieldName ++ "' must be at most " ++ rule) else none
    | .vUint n => if (n : ℚ) > mx then some ("field '" ++ fieldName ++ "' must be at most " ++ rule) else none
    | .vFloat q => if q > mx then some ("field '" ++ fieldName ++ "' must be at most " ++ rule) else none
    | v => some ("max validation not supported for type " ++ kindName (kindOf v))

/-- The `oneof` entry: string fields only, options split on `|`. -/
def oneofValidator (fieldName : String) (value : Value) (rule : String) : Option String :=
  match value with
  | .vStr s =>
    let options := goSplit rule '|'
    if options.any (fun o => goTrim o = s) then none
    else some ("field '" ++ fieldName ++ "' must be one of [" ++ joinComma options ++ "]")
  | _ => some "oneof validation only supports string fields"

/-- `ValidatorRegistry.GetValidator` over the table that
`registerBuiltInValidators` fills.  The `email` and `regex` entries exist in
the source but depend on a regular-expression engine; no claim dispatches
them and they are outside this model (a tag naming them is not used in any
theorem below). -/
def reflectionGetValidator (name : String) :
    Option (String → Value → String → Option String) :=
  if name = "required" then some requiredValidator
  else if name = "minlen" then some minlenValidator
  else if name = "maxlen" then some maxlenValidator
  else if name = "min" then some minValidator
  else if name = "max" then some maxValidator
  else if name = "oneof" then some oneofValidator
  else none

/-- `validateFieldWithReflection` (validator.go): iterate the field's rule
map, dispatch each rule to the registry, collect errors; with fail-fast the
first validator error ends the loop.  The Go `range` over the rules map has
an unspecified order, so the iteration sequence `ord` is an explicit
argument; faithful sequences are permutations of the parsed map's
entries. -/
def validateFieldWithReflection (cfg : VConfig) (fieldName : String) (value : Value) :
    List (String × String) → List VError
  | [] => []
  | (rn, rv) :: rest =>
    match reflectionGetValidator rn with
    | some vf =>
      match vf fieldName value rv with
      | some msg =>
        if cfg.failFast then [⟨fieldName, msg⟩]
        else ⟨fieldName, msg⟩ :: validateFieldWithReflection cfg fieldName value rest
      | none => validateFieldWithReflection cfg fieldName value rest
    | none =>
      if cfg.allowUnknownTags then validateFieldWithReflection cfg fieldName value rest
      else ⟨fieldName, "unknown validation rule: " ++ rn⟩ ::
        validateFieldWithReflection cfg fieldName value rest

/-- The outcome of `validateWithReflection`: either the non-struct rejection
or a non-empty error collection. -/
inductive TopErr where
  | notStruct (kind : String)
  | verrs (errs : List VError)
deriving DecidableEq, Repr

/-- `ValidationErrors.Error` (errors.go): one error renders its message,
several render joined behind a prefix. -/
def renderVErrors (errs : List VError) : String :=
  match errs with
  | [] => ""
  | [e] => e.message
  | es => "validation failed: " ++ joinSemi (es.map (fun e => e.message))

/-- The `error.Error()` string a nested recursive call reports upward. -/
def renderTopErr : TopErr → String
  | .notStruct k => "validation target must be a struct, got " ++ k
  | .verrs es => renderVErrors es

/-- An iteration-order choice for the per-field rule maps (Go's map `range`
order is unspecified). -/
def Sched := String → List (String × String) → List (String × String)

/-- A schedule is faithful when every sequence it yields enumerates exactly
the map's entries. -/
def FaithfulSched (sched : Sched) : Prop :=
  ∀ n rs, (sched n rs).Perm rs

/-- Whether a field value triggers the nested-struct recursion: a struct,
or a non-nil pointer to a struct. -/
def isCompositeField : Value → Bool
  | .vStruct _ => true
  | .vPtr (.vStruct _) => true
  | _ => false

mutual
/-- `validateWithReflection` (validator.go): dereference one pointer level,
reject non-structs, then walk the fields in declaration order. -/
def validateWithReflection (cfg : VConfig) (sched : Sched) : Value → Except TopErr Unit
  | .vStruct fs =>
    match loopFields cfg sched fs [] with
    | [] => .ok ()
    | errs => .error (.verrs errs)
  | .vPtr (.vStruct fs) =>
    match loopFields cfg sched fs [] with
    | [] => .ok ()
    | errs => .error (.verrs errs)
  | .vPtr inner => .error (.notStruct (kindName (kindOf inner)))
  | .vNil => .error (.notStruct "invalid")
  | v => .error (.notStruct (kindName (kindOf v)))

/-- The field loop of `validateWithReflection`: untagged composite fields
recurse unconditionally (and `continue` past the fail-fast check); tagged
fields run their rules, then recurse if composite, then stop the walk when
fail-fast is set and any error has been collected.  The recursion into a
struct (or non-nil pointer to struct) field records the rendered error, if
any, against the field's name (`collector.Add(field.Name, err.Error())`);
`nestedErrs` below names this step for the proofs. -/
def loopFields (cfg : VConfig) (sched : Sched) :
    FieldList → List VError → List VError
  | .nil, acc => acc
  | .cons name tag value rest, acc =>
    if tag = "" then
      loopFields cfg sched rest
        (acc ++
          match value with
          | .vStruct fs =>
            (match validateWithReflection cfg sched (.vStruct fs) with
             | .ok _ => []
             | .error e => [⟨name, renderTopErr e⟩])
          | .vPtr (.vStruct fs) =>
            (match validateWithReflection cfg sched (.vPtr (.vStruct fs)) with
             | .ok _ => []
             | .error e => [⟨name, renderTopErr e⟩])
          | _ => [])
    else
      let rules := parseValidationRules tag
      let acc := acc ++ validateFieldWithReflection cfg name value (sched name rules)
        ++ (match value with
            | .vStruct fs =>
              (match validateWithReflection cfg sched (.vStruct fs) with
               | .ok _ => []
               | .error e => [⟨name, renderTopErr e⟩])
            | .vPtr (.vStruct fs) =>
              (match validateWithReflection cfg sched (.vPtr (.vStruct fs)) with
               | .ok _ => []
               | .error e => [⟨name, renderTopErr e⟩])
            | _ => [])
      if cfg.failFast && !acc.isEmpty then acc
      else loopFields cfg sched rest acc
end

/-- The nested-recursion step of the field loop, as a named function for the
statements below: recurse into a struct (or non-nil pointer to struct) field
and record the rendered error, if any, against the field's name. -/
def nestedErrs (cfg : VConfig) (sched : Sched) (name : String) : Value → List VError
  | .vStruct fs =>
    (match validateWithReflection cfg sched (.vStruct fs) with
     | .ok _ => []
     | .error e => [⟨name, renderTopErr e⟩])
  | .vPtr (.vStruct fs) =>
    (match validateWithReflection cfg sched (.vPtr (.vStruct fs)) with
     | .ok _ => []
     | .error e => [⟨name, renderTopErr e⟩])
  | _ => []

/-! ## Further built-in rule functions used by the rule table -/

/-- `strconv.ParseUint(s, 10, 64)`: digits only, `uint64` range. -/
def goParseUint (s : String) : Option Nat :=
  match parseDigits s.data with
  | none => none
  | some n => if n ≤ 2 ^ 64 - 1 then some n else none

/-- `strconv.ParseBool`. -/
def goParseBool (s : String) : Option Bool :=
  if s = "1" ∨ s = "t" ∨ s = "T" ∨ s = "true" ∨ s = "TRUE" ∨ s = "True" then some true
  else if s = "0" ∨ s = "f" ∨ s = "F" ∨ s = "false" ∨ s = "FALSE" ∨ s = "False" then some false
  else none

/-- `isEq` (builtin_rules.go): equality against the parsed parameter. -/
def isEq (fl : FL) : Bool :=
  match fl.field with
  | .vStr s => s = fl.param
  | .vInt n => (goParseInt fl.param).elim false (fun p => n = p)
  | .vUint n => (goParseUint fl.param).elim false (fun p => n = p)
  | .vFloat q => (goParseFloat fl.param).elim false (fun p => q = p)
  | .vBool b => (goParseBool fl.param).elim false (fun p => b = p)
  | _ => false

/-- `isNe`. -/
def isNe (fl : FL) : Bool := !isEq fl

/-- `isOneOf`: the parameter is a space-separated option list. -/
def isOneOf (fl : FL) : Bool :=
  let values := goSplit fl.param ' '
  let fieldStr := getString fl.field
  values.any (fun v => fieldStr = goTrim v)

/-- The `customRules` table that `registerBuiltInRules` (builtin_rules.go)
fills, restricted to the rules embedded here.  The string-format rules
(`alpha`, `email`, `url`, `ip`, `uuid`, …) delegate to the external format
validators that the spec places outside the core, and `eqfield`/`nefield`
compare through Go interface identity; none of them is dispatched by any
theorem below. -/
def customRules (name : String) : Option (FL → Bool) :=
  if name = "required" then some isRequired
  else if name = "omitempty" then some isOmitEmpty
  else if name = "min" then some hasMinOf
  else if name = "max" then some hasMaxOf
  else if name = "len" then some hasLengthOf
  else if name = "eq" then some isEq
  else if name = "ne" then some isNe
  else if name = "oneof" then some isOneOf
  else if name = "gtfield" then some isGtField
  else if name = "gtefiled" then some isGteField
  else if name = "ltfield" then some isLtField
  else if name = "ltefield" then some isLteField
  else if name = "required_if" then some isRequiredIf
  else if name = "required_unless" then some isRequiredUnless
  else if name = "required_with" then some isRequiredWith
  else if name = "required_without" then some isRequiredWithout
  else none

/-! ## The main traversal engine's per-field evaluation (spec-modelled)

The repository's main `Validator` (its `Struct`/`validateStruct`/
`validateField` methods) is referenced by the built-in rule functions, the
tests and the documentation, but its source file is not under `src/`; only
its rule implementations (`builtin_rules.go`), its contexts
(`field_level.go`) and its documentation survive there. -/

/-- One rule evaluation of the modelled engine: dispatch the rule name
through the source's `customRules` table and record a structured error when
the rule function reports failure.  The missing engine's message text is
unknown; the model records the field name and rule name, which is what the
spec's Validation Error requires. -/
def evalRuleModelled (parent : Value) (fieldName : String) (v : Value)
    (r : String × String) : Option VError :=
  match customRules r.1 with
  | some f =>
    if f ⟨parent, v, fieldName, r.2⟩ then none
    else some ⟨fieldName, "field '" ++ fieldName ++ "' failed validation '" ++ r.1 ++ "'"⟩
  | none => none

/-- Modelled from the spec: the main traversal engine's per-field rule
evaluation (`Validator.validateField`), whose source is not under `src/`.
Per the spec (§4.2 step 3): parse the tag into the ordered rule list; when
the `omitempty` marker is present and the current value is empty (the
engine's emptiness test is `!HasValue`, per the repository documentation of
the omit-empty logic), evaluate only the rules whose name begins with
`required`; otherwise evaluate every rule in order.  The rule functions
themselves are the source functions registered in `customRules`. -/
def validateFieldModelled (parent : Value) (fieldName : String) (v : Value)
    (tag : String) : List VError :=
  let rules := specOrderedConstraintDecl tag
  let active :=
    if rules.any (fun r => r.1 = "omitempty") && !HasValue ⟨parent, v, fieldName, ""⟩ then
      rules.filter (fun r => strStarts "required" r.1)
    else rules
  active.filterMap (evalRuleModelled parent fieldName v)

/-! ## The cached rule registry (`rules/factory.go`) -/

/-- The element type a generic `GetRule[T]` call requests; the type
assertion `cached.(Validator[T])` compares it with the cached instance's
type. -/
inductive TyTag where
  | tInt64 | tInt | tFloat64 | tString
deriving DecidableEq, Repr

/-- A parsed validator instance.  `id` is the allocation identity: every
factory invocation produces a fresh `id`, so equality of `id`s models Go
reference equality. -/
structure RuleInstance where
  id : Nat
  ty : TyTag
  desc : String
deriving DecidableEq, Repr

/-- A type-erased factory: parses the rule string into the produced
validator's element type and description, or fails. -/
def Factory := String → Except String (TyTag × String)

/-- The registry state: the factory table, the parsed-instance cache
(`sync.Map`s, modelled as association lists), and the allocation
counter. -/
structure RegistryState where
  factories : List (String × Factory)
  ruleCache : List (String × RuleInstance)
  nextId : Nat

/-- `sync.Map.Load`. -/
def assocFind {α : Type} (key : String) : List (String × α) → Option α
  | [] => none
  | (k, v) :: rest => if k = key then some v else assocFind key rest

/-- `sync.Map.Store`: overwrite in place or append. -/
def assocStore {α : Type} (key : String) (v : α) : List (String × α) → List (String × α)
  | [] => [(key, v)]
  | (k, v') :: rest =>
    if k = key then (key, v) :: rest else (k, v') :: assocStore key v rest

/-- The factory-invocation path of `GetRule`: load the factory, run it,
check the produced type against the requested one, store in the cache.  The
returned flag records that a factory ran (all parsing work happens inside
factories). -/
def getRuleInvoke (T : TyTag) (name ruleString cacheKey : String)
    (reg : RegistryState) : Except String RuleInstance × RegistryState × Bool :=
  match assocFind name reg.factories with
  | none => (.error ("rule '" ++ name ++ "' not registered"), reg, false)
  | some fac =>
    match fac ruleString with
    | .error e => (.error e, reg, true)
    | .ok (ty, desc) =>
      if ty = T then
        let inst : RuleInstance := ⟨reg.nextId, ty, desc⟩
        (.ok inst,
         { factories := reg.factories,
           ruleCache := assocStore cacheKey inst reg.ruleCache,
           nextId := reg.nextId + 1 },
         true)
      else
        (.error ("type mismatch for rule '" ++ name ++ "'"),
         { factories := reg.factories, ruleCache := reg.ruleCache,
           nextId := reg.nextId + 1 },
         true)

/-- `GetRule[T]` (rules/factory.go): cache-first resolution keyed by
`name + ":" + ruleString`; a cache hit whose instance matches the requested
type returns it untouched; otherwise the factory runs and its result is
stored. -/
def GetRule (T : TyTag) (name ruleString : String) (reg : RegistryState) :
    Except String RuleInstance × RegistryState × Bool :=
  match assocFind (name ++ ":" ++ ruleString) reg.ruleCache with
  | some cached =>
    if cached.ty = T then (.ok cached, reg, false)
    else getRuleInvoke T name ruleString (name ++ ":" ++ ruleString) reg
  | none => getRuleInvoke T name ruleString (name ++ ":" ++ ruleString) reg

/-- `RangeFactory[int64]` (rules/range.go): split the rule string, parse and
check the range parameters; for `T = int64` the numeric conversion is the
identity and the overflow re-check always passes. -/
def RangeFactory (ruleString : String) : Except String (Int × Int) :=
  match ParseRuleString ruleString with
  | .error e => .error e
  | .ok (_, params) =>
    match ParseRangeParams params with
    | .error e => .error e
    | .ok (mn, mx) => .ok (mn, mx)

/-- `RangeFactory[int64]` packaged as a registry factory; the description
mirrors `NumericRange.String()`. -/
def rangeFactoryInt64 : Factory := fun ruleString =>
  match RangeFactory ruleString with
  | .error e => .error e
  | .ok (mn, mx) => .ok (.tInt64, "range[" ++ toString mn ++ ":" ++ toString mx ++ "]")

/-! ## Concrete inputs used by theorems -/

/-- The identity iteration order (one admissible map enumeration). -/
def sched0 : Sched := fun _ rs => rs

/-- The reversed iteration order (another admissible map enumeration). -/
def schedRev : Sched := fun _ rs => rs.reverse

/-- Whether a traversal outcome is success (`err == nil` at the caller). -/
def resultOk : Except TopErr Unit → Bool
  | .ok _ => true
  | .error _ => false

/-- The ordered field attributions of a traversal outcome: the `Field` each
collected error is recorded under, in collection order. -/
def fieldsOfResult : Except TopErr Unit → List String
  | .error (.verrs l) => l.map VError.field
  | _ => []

/-- The rational −5/2, written through the `Rat` constructor so that the
kernel can evaluate arithmetic on it. -/
def qneg52 : ℚ := ⟨-5, 2, by decide, by decide⟩

/-- The rational 7/2. -/
def q72 : ℚ := ⟨7, 2, by decide, by decide⟩

/-- One rule evaluation of `validateFieldWithReflection`, position-free: the
optional error a single `(name, parameter)` entry contributes. -/
def ruleStep (cfg : VConfig) (fieldName : String) (value : Value)
    (p : String × String) : Option VError :=
  match reflectionGetValidator p.1 with
  | some vf =>
    match vf fieldName value p.2 with
    | some msg => some ⟨fieldName, msg⟩
    | none => none
  | none =>
    if cfg.allowUnknownTags then none
    else some ⟨fieldName, "unknown validation rule: " ++ p.1⟩

/-- Fold a list of `(name, parameter)` assignments into a map, left to
right — the loop body of `parseValidationRules`. -/
def insertAll (acc : List (String × String)) (l : List (String × String)) :
    List (String × String) :=
  l.foldl (fun a kv => mapInsert kv.1 kv.2 a) acc

/-! ## Theorems -/

/-- C9: in the reflection strategy's built-in `required` rule, the kind
switch handles only strings, nil-able kinds and arrays, so int, uint,
float and bool fields always satisfy `required`, including at their zero
values. -/
theorem required_numeric_always_passes :
    ∀ (fieldName rule : String),
      (∀ n : Int, requiredValidator fieldName (.vInt n) rule = none) ∧
      (∀ n : Nat, requiredValidator fieldName (.vUint n) rule = none) ∧
      (∀ q : ℚ, requiredValidator fieldName (.vFloat q) rule = none) ∧
      (∀ b : Bool, requiredValidator fieldName (.vBool b) rule = none) := by
  intro fieldName rule
  exact ⟨fun _ => rfl, fun _ => rfl, fun _ => rfl, fun _ => rfl⟩

/-- C6 (code bug): `isLteField` computes
`compareFields(a, b, kind, 0) || compareFields(a, b, kind, -1)`, which is
`(a ≥ b) || (a < b)`: for int siblings the rule passes for every pair of
values, in particular when the field strictly exceeds the sibling (the
function's own documentation says "less than or equal"). -/
theorem ltefield_always_passes_on_int_siblings :
    ∀ (a b : Int),
      isLteField ⟨.vStruct (.cons "A" "ltefield=B" (.vInt a)
          (.cons "B" "" (.vInt b) .nil)), .vInt a, "A", "B"⟩ = true := by
  intro a b
  have hget : GetStructFieldOK ⟨.vStruct (.cons "A" "ltefield=B" (.vInt a)
      (.cons "B" "" (.vInt b) .nil)), .vInt a, "A", "B"⟩ = some (.vInt b, .kInt) := rfl
  unfold isLteField
  rw [hget]
  by_cases h : b ≤ a
  · simp [compareFields, goInt, h]
  · simp [compareFields, goInt, h, Int.lt_of_not_ge h]

/-- C8: `ParseRangeParams` splits the parameter on `:` or `,`, parses each
bound as an integer and rejects out-of-order bounds, so a successful
resolution (directly or through `RangeFactory`) always carries
`min ≤ max`: no parameter string with parsed min exceeding parsed max ever
yields a validator. -/
theorem range_bounds_ordered :
    (∀ (p : String) (mn mx : Int), ParseRangeParams p = .ok (mn, mx) → mn ≤ mx) ∧
    (∀ (rs : String) (mn mx : Int), RangeFactory rs = .ok (mn, mx) → mn ≤ mx) := by
  have h1 : ∀ (p : String) (mn mx : Int), ParseRangeParams p = .ok (mn, mx) → mn ≤ mx := by
    intro p mn mx h
    unfold ParseRangeParams at h
    split at h
    · exact absurd h (by simp)
    · split at h
      · split at h
        · exact absurd h (by simp)
        · split at h
          · exact absurd h (by simp)
          · split at h
            · exact absurd h (by simp)
            · rename_i hgt
              simp only [Except.ok.injEq, Prod.mk.injEq] at h
              omega
      · exact absurd h (by simp)
  refine ⟨h1, ?_⟩
  intro rs mn mx h
  unfold RangeFactory at h
  split at h
  · exact absurd h (by simp)
  · split at h
    · exact absurd h (by simp)
    · rename_i hrule hparams
      simp only [Except.ok.injEq, Prod.mk.injEq] at h
      obtain ⟨rfl, rfl⟩ := h
      exact h1 _ _ _ hparams

/-- Witness for C8: bounds in order resolve (`1 ≤ 20`, via the theorem at
`"1:20"` and `"range=5:99999"`), and the inverted `"5:3"` is a
configuration error. -/
theorem range_bounds_ordered_witness :
    ((1 : Int) ≤ 20 ∧ (5 : Int) ≤ 99999) ∧
      ParseRangeParams "5:3" = .error "min (5) cannot be greater than max (3)" :=
  ⟨⟨range_bounds_ordered.1 "1:20" 1 20 rfl,
    range_bounds_ordered.2 "range=5:99999" 5 99999 rfl⟩, rfl⟩

/-- C2 (counterexample): with a missing sibling `Other` and an empty field,
`required_unless` and `required_without` fail (they treat the field as
required), while `required_if` and `required_with` pass (not required) —
the default is not "condition not met" for all four conditional rules. -/
theorem conditional_missing_sibling_counterexample :
    isRequiredUnless ⟨.vStruct (.cons "Name" "" (.vStr "x") .nil), .vStr "", "F", "Other,yes"⟩
        = false ∧
    isRequiredWithout ⟨.vStruct (.cons "Name" "" (.vStr "x") .nil), .vStr "", "F", "Other"⟩
        = false ∧
    isRequiredIf ⟨.vStruct (.cons "Name" "" (.vStr "x") .nil), .vStr "", "F", "Other,yes"⟩
        = true ∧
    isRequiredWith ⟨.vStruct (.cons "Name" "" (.vStr "x") .nil), .vStr "", "F", "Other"⟩
        = true := by
  decide

/-- C2 (amended): when the parameter names a sibling that does not exist in
the immediate parent struct, `required_if` and `required_with` treat the
condition as not met (the rule passes, the field is not required), but
`required_unless` and `required_without` treat the field as required (the
rule reduces to `HasValue`): the default is explicit but differs between the
two pairs of conditional rules. -/
theorem conditional_missing_sibling_defaults :
    ∀ (flds : FieldList) (v : Value),
      findField flds "Other" = none →
      isRequiredIf ⟨.vStruct flds, v, "F", "Other,yes"⟩ = true ∧
      isRequiredWith ⟨.vStruct flds, v, "F", "Other"⟩ = true ∧
      isRequiredUnless ⟨.vStruct flds, v, "F", "Other,yes"⟩
        = HasValue ⟨.vStruct flds, v, "F", "Other,yes"⟩ ∧
      isRequiredWithout ⟨.vStruct flds, v, "F", "Other"⟩
        = HasValue ⟨.vStruct flds, v, "F", "Other"⟩ := by
  intro flds v h
  have hpp : ParseParam "Other,yes" = ["Other", "yes"] := by decide
  have hlook : getStructFieldOKAt (.vStruct flds) "Other" = none := by
    simp [getStructFieldOKAt, ExtractType, kindOf, h]
  refine ⟨?_, ?_, ?_, ?_⟩
  · unfold isRequiredIf
    simp [hpp, hlook]
  · unfold isRequiredWith
    simp [hlook]
  · unfold isRequiredUnless
    simp [hpp, hlook, HasValue]
  · unfold isRequiredWithout
    simp [hlook, HasValue]

/-- Witness for C2 (amended): at a parent with a single field `Name` and a
non-empty field value, the four conditional rules evaluate as the amended
claim states. -/
theorem conditional_missing_sibling_defaults_witness :
    isRequiredIf ⟨.vStruct (.cons "Name" "" (.vStr "x") .nil), .vStr "q", "F", "Other,yes"⟩
        = true ∧
    isRequiredWith ⟨.vStruct (.cons "Name" "" (.vStr "x") .nil), .vStr "q", "F", "Other"⟩
        = true ∧
    isRequiredUnless ⟨.vStruct (.cons "Name" "" (.vStr "x") .nil), .vStr "q", "F", "Other,yes"⟩
        = true ∧
    isRequiredWithout ⟨.vStruct (.cons "Name" "" (.vStr "x") .nil), .vStr "q", "F", "Other"⟩
        = true := by
  have h := conditional_missing_sibling_defaults
    (.cons "Name" "" (.vStr "x") .nil) (.vStr "q") rfl
  exact ⟨h.1, h.2.1, h.2.2.1.trans (by decide), h.2.2.2.trans (by decide)⟩

/-- C10 (counterexample): `hasMaxOf` truncates the float toward zero before
comparing, so with bound m = −3 and value v = −5/2 (which satisfies
m < v < m + 1) the `max=-3` rule fails: `int64(-2.5) = -2 > -3`.  The claim's
"for every float value v and bound m with m < v < m+1, max=m passes" is
false for negative values. -/
theorem float_truncation_counterexample :
    (((-3 : Int) : ℚ) < qneg52 ∧ qneg52 < ((-2 : Int) : ℚ)) ∧
    ParseIntParam "-3" = some (-3) ∧
    hasMaxOf ⟨.vNil, .vFloat qneg52, "F", "-3"⟩ = false := by
  refine ⟨⟨by decide, by decide⟩, by decide, by decide⟩

/-- C10 (amended): `hasMinOf`/`hasMaxOf` truncate float values to `int64`
toward zero.  For non-negative v with m < v < m+1 the truncation lands on m,
so both `max=m` and `min=m` pass; for negative non-integral v the truncation
rounds up and the claimed behavior fails (see the counterexample). -/
theorem float_truncation_amended :
    ∀ (p : String) (m : Int) (v : ℚ),
      ParseIntParam p = some m → 0 ≤ v → (m : ℚ) < v → v < ((m + 1 : Int) : ℚ) →
      hasMaxOf ⟨.vNil, .vFloat v, "F", p⟩ = true ∧
      hasMinOf ⟨.vNil, .vFloat v, "F", p⟩ = true := by
  intro p m v hp h0 h1 h2
  have hfloor : ⌊v⌋ = m := by
    rw [Int.floor_eq_iff]
    refine ⟨le_of_lt h1, ?_⟩
    push_cast at h2
    linarith
  have htr : truncQ v = m := by
    unfold truncQ
    rw [if_neg (not_lt.mpr h0)]
    exact hfloor
  unfold hasMaxOf hasMinOf
  rw [hp]
  simp [htr]

/-- Witness for C10 (amended): bound 3 and value 7/2. -/
theorem float_truncation_amended_witness :
    hasMaxOf ⟨.vNil, .vFloat q72, "F", "3"⟩ = true ∧
    hasMinOf ⟨.vNil, .vFloat q72, "F", "3"⟩ = true :=
  float_truncation_amended "3" 3 q72 (by decide) (by decide) (by decide) (by decide)

/-- `Store` followed by `Load` on the same key finds the stored value. -/
theorem assocFind_assocStore {α : Type} (key : String) (v : α) :
    ∀ c : List (String × α), assocFind key (assocStore key v c) = some v := by
  intro c
  induction c with
  | nil => simp [assocStore, assocFind]
  | cons hd tl ih =>
    obtain ⟨k, v'⟩ := hd
    by_cases h : k = key
    · simp [assocStore, assocFind, h]
    · simp [assocStore, assocFind, h, ih]

/-- C5: resolving the same `(rule-name, parameter-text)` pair (at the same
requested element type) a second time returns exactly the instance the
first resolution produced — same allocation identity, so Go reference
equality — leaves the registry untouched, and invokes no factory, hence
performs no parsing work. -/
theorem getrule_second_resolution_cached :
    ∀ (T : TyTag) (name ruleString : String) (reg reg1 : RegistryState)
      (inst : RuleInstance) (invoked : Bool),
      GetRule T name ruleString reg = (.ok inst, reg1, invoked) →
      GetRule T name ruleString reg1 = (.ok inst, reg1, false) := by
  intro T name ruleString reg reg1 inst invoked h
  have hinv : ∀ reg' : RegistryState,
      getRuleInvoke T name ruleString (name ++ ":" ++ ruleString) reg'
          = (.ok inst, reg1, invoked) →
      GetRule T name ruleString reg1 = (.ok inst, reg1, false) := by
    intro reg' hi
    unfold getRuleInvoke at hi
    split at hi
    · exact absurd hi (by simp)
    · split at hi
      · exact absurd hi (by simp)
      · split at hi
        · rename_i fac hfac ty desc hok hty
          simp only [Prod.mk.injEq, Except.ok.injEq] at hi
          obtain ⟨hinst, hreg, _⟩ := hi
          unfold GetRule
          rw [← hreg]
          simp only [assocFind_assocStore, hinst]
          have : inst.ty = T := by rw [← hinst]; exact hty
          simp [this]
        · exact absurd hi (by simp)
  unfold GetRule at h
  split at h
  · rename_i cached hfind
    split at h
    · rename_i hty
      simp only [Prod.mk.injEq, Except.ok.injEq] at h
      obtain ⟨hinst, hreg, _⟩ := h
      unfold GetRule
      rw [← hreg, hfind]
      simp [← hinst, hty]
    · exact hinv reg h
  · exact hinv reg h

/-- Witness for C5: a registry holding the `range_int64` factory; the first
resolution of `("range_int64", "range=1:100")` parses and caches instance 0,
and the theorem applied to that run shows the second resolution returns the
identical instance with the registry unchanged and no factory invocation. -/
theorem getrule_second_resolution_cached_witness :
    GetRule .tInt64 "range_int64" "range=1:100"
        { factories := [("range_int64", rangeFactoryInt64)],
          ruleCache := [("range_int64:range=1:100", ⟨0, .tInt64, "range[1:100]"⟩)],
          nextId := 1 }
      = (.ok ⟨0, .tInt64, "range[1:100]"⟩,
         { factories := [("range_int64", rangeFactoryInt64)],
           ruleCache := [("range_int64:range=1:100", ⟨0, .tInt64, "range[1:100]"⟩)],
           nextId := 1 },
         false) :=
  getrule_second_resolution_cached .tInt64 "range_int64" "range=1:100"
    { factories := [("range_int64", rangeFactoryInt64)], ruleCache := [], nextId := 0 }
    _ _ true rfl

/-- Without fail-fast, the per-field loop collects exactly the per-rule
errors in iteration order. -/
theorem vfwr_eq_filterMap (cfg : VConfig) (hff : cfg.failFast = false)
    (fieldName : String) (value : Value) :
    ∀ ord : List (String × String),
      validateFieldWithReflection cfg fieldName value ord
        = ord.filterMap (ruleStep cfg fieldName value) := by
  intro ord
  induction ord with
  | nil => simp [validateFieldWithReflection]
  | cons hd tl ih =>
    obtain ⟨rn, rv⟩ := hd
    unfold validateFieldWithReflection
    rw [List.filterMap_cons]
    cases hv : reflectionGetValidator rn with
    | some vf =>
      cases hm : vf fieldName value rv with
      | some msg =>
        have hstep : ruleStep cfg fieldName value (rn, rv) = some ⟨fieldName, msg⟩ := by
          simp [ruleStep, hv, hm]
        simp only [hm, hff, Bool.false_eq_true, if_false, hstep, ih]
      | none =>
        have hstep : ruleStep cfg fieldName value (rn, rv) = none := by
          simp [ruleStep, hv, hm]
        simp only [hm, hstep, ih]
    | none =>
      cases hu : cfg.allowUnknownTags with
      | true =>
        have hstep : ruleStep cfg fieldName value (rn, rv) = none := by
          simp [ruleStep, hv, hu]
        simp only [hu, if_true, hstep, ih]
      | false =>
        have hstep : ruleStep cfg fieldName value (rn, rv)
            = some ⟨fieldName, "unknown validation rule: " ++ rn⟩ := by
          simp [ruleStep, hv, hu]
        simp only [hu, Bool.false_eq_true, if_false, hstep, ih]

/-- Every error one rule entry contributes is attributed to the field under
validation. -/
theorem ruleStep_field (cfg : VConfig) (fieldName : String) (v : Value)
    (p : String × String) (e : VError) (h : ruleStep cfg fieldName v p = some e) :
    e.field = fieldName := by
  unfold ruleStep at h
  split at h
  · split at h
    · simp only [Option.some.injEq] at h
      rw [← h]
    · exact absurd h (by simp)
  · split at h
    · exact absurd h (by simp)
    · simp only [Option.some.injEq] at h
      rw [← h]

/-- The field attributions of a flat rule iteration: one entry per firing
rule, all naming the field under validation. -/
theorem filterMap_ruleStep_attr (cfg : VConfig) (fieldName : String) (v : Value) :
    ∀ ord : List (String × String),
      (ord.filterMap (ruleStep cfg fieldName v)).map VError.field
        = List.replicate (ord.countP (fun p => (ruleStep cfg fieldName v p).isSome))
            fieldName := by
  intro ord
  induction ord with
  | nil => simp
  | cons hd tl ih =>
    rw [List.filterMap_cons, List.countP_cons]
    cases hs : ruleStep cfg fieldName v hd with
    | none => simp [hs, ih]
    | some e =>
      have he := ruleStep_field cfg fieldName v hd e hs
      simp [hs, ih, he, List.replicate_succ]

/-- Two admissible iteration orders of one field's rule map give error
lists with the same field attributions (fail-fast disabled). -/
theorem vfwr_attr (cfg : VConfig) (hff : cfg.failFast = false)
    (fieldName : String) (v : Value) {ord1 ord2 : List (String × String)}
    (h : ord1.Perm ord2) :
    (validateFieldWithReflection cfg fieldName v ord1).map VError.field
      = (validateFieldWithReflection cfg fieldName v ord2).map VError.field := by
  rw [vfwr_eq_filterMap cfg hff fieldName v ord1,
      vfwr_eq_filterMap cfg hff fieldName v ord2,
      filterMap_ruleStep_attr, filterMap_ruleStep_attr,
      h.countP_eq]

/-- The cons equation of the field loop, with the nested-recursion step
written through `nestedErrs`. -/
theorem loopFields_cons_eq (cfg : VConfig) (sched : Sched)
    (name tag : String) (value : Value) (rest : FieldList) (acc : List VError) :
    loopFields cfg sched (.cons name tag value rest) acc
      = if tag = "" then
          loopFields cfg sched rest (acc ++ nestedErrs cfg sched name value)
        else
          if cfg.failFast
              && !(acc ++ validateFieldWithReflection cfg name value
                      (sched name (parseValidationRules tag))
                    ++ nestedErrs cfg sched name value).isEmpty then
            acc ++ validateFieldWithReflection cfg name value
                (sched name (parseValidationRules tag))
              ++ nestedErrs cfg sched name value
          else
            loopFields cfg sched rest
              (acc ++ validateFieldWithReflection cfg name value
                  (sched name (parseValidationRules tag))
                ++ nestedErrs cfg sched name value) := by
  cases value with
  | vStr s => simp [loopFields, nestedErrs]
  | vInt n => simp [loopFields, nestedErrs]
  | vUint n => simp [loopFields, nestedErrs]
  | vFloat q => simp [loopFields, nestedErrs]
  | vBool b => simp [loopFields, nestedErrs]
  | vNil => simp [loopFields, nestedErrs]
  | vSlice l => simp [loopFields, nestedErrs]
  | vStruct fs => simp [loopFields, nestedErrs]
  | vPtr inner => cases inner <;> simp [loopFields, nestedErrs]

mutual

/-- Across any two admissible iteration orders (fail-fast disabled), the
field loop produces error lists with identical field attributions. -/
theorem loopFields_attr (cfg : VConfig) (hff : cfg.failFast = false)
    (s1 s2 : Sched) (hs1 : FaithfulSched s1) (hs2 : FaithfulSched s2) :
    ∀ (fs : FieldList) (acc1 acc2 : List VError),
      acc1.map VError.field = acc2.map VError.field →
      (loopFields cfg s1 fs acc1).map VError.field
        = (loopFields cfg s2 fs acc2).map VError.field
  | .nil, acc1, acc2, h => by simpa [loopFields] using h
  | .cons n t v rest, acc1, acc2, h => by
    have hnest := nestedErrs_attr cfg hff s1 s2 hs1 hs2 n v
    by_cases ht : t = ""
    · have hacc : (acc1 ++ nestedErrs cfg s1 n v).map VError.field
          = (acc2 ++ nestedErrs cfg s2 n v).map VError.field := by
        simp [h, hnest]
      have hrec := loopFields_attr cfg hff s1 s2 hs1 hs2 rest
        (acc1 ++ nestedErrs cfg s1 n v) (acc2 ++ nestedErrs cfg s2 n v) hacc
      rw [loopFields_cons_eq, loopFields_cons_eq, if_pos ht, if_pos ht]
      exact hrec
    · have hvf : (validateFieldWithReflection cfg n v
            (s1 n (parseValidationRules t))).map VError.field
          = (validateFieldWithReflection cfg n v
            (s2 n (parseValidationRules t))).map VError.field :=
        vfwr_attr cfg hff n v
          ((hs1 n (parseValidationRules t)).trans
            (hs2 n (parseValidationRules t)).symm)
      have hacc :
          (acc1 ++ validateFieldWithReflection cfg n v (s1 n (parseValidationRules t))
            ++ nestedErrs cfg s1 n v).map VError.field
          = (acc2 ++ validateFieldWithReflection cfg n v (s2 n (parseValidationRules t))
            ++ nestedErrs cfg s2 n v).map VError.field := by
        simp [h, hnest, hvf]
      have hrec := loopFields_attr cfg hff s1 s2 hs1 hs2 rest
        (acc1 ++ validateFieldWithReflection cfg n v (s1 n (parseValidationRules t))
          ++ nestedErrs cfg s1 n v)
        (acc2 ++ validateFieldWithReflection cfg n v (s2 n (parseValidationRules t))
          ++ nestedErrs cfg s2 n v) hacc
      rw [loopFields_cons_eq, loopFields_cons_eq, if_neg ht, if_neg ht]
      simpa [hff] using hrec

/-- Across any two admissible iteration orders (fail-fast disabled), the
nested-recursion step reports the same field attributions: the merged
message may differ, but whether an error is recorded, and under which
field name, does not. -/
theorem nestedErrs_attr (cfg : VConfig) (hff : cfg.failFast = false)
    (s1 s2 : Sched) (hs1 : FaithfulSched s1) (hs2 : FaithfulSched s2) :
    ∀ (name : String) (v : Value),
      (nestedErrs cfg s1 name v).map VError.field
        = (nestedErrs cfg s2 name v).map VError.field
  | name, .vStr s => by simp [nestedErrs]
  | name, .vInt n => by simp [nestedErrs]
  | name, .vUint n => by simp [nestedErrs]
  | name, .vFloat q => by simp [nestedErrs]
  | name, .vBool b => by simp [nestedErrs]
  | name, .vNil => by simp [nestedErrs]
  | name, .vSlice l => by simp [nestedErrs]
  | name, .vStruct fs => by
    have hl := loopFields_attr cfg hff s1 s2 hs1 hs2 fs [] [] rfl
    cases h1 : loopFields cfg s1 fs [] with
    | nil =>
      have h2 : loopFields cfg s2 fs [] = [] := by
        rw [h1] at hl
        simpa using hl.symm
      simp [nestedErrs, validateWithReflection, h1, h2]
    | cons e es =>
      cases h2 : loopFields cfg s2 fs [] with
      | nil =>
        rw [h1, h2] at hl
        simp at hl
      | cons e2 es2 =>
        simp [nestedErrs, validateWithReflection, h1, h2]
  | name, .vPtr (.vStruct fs) => by
    have hl := loopFields_attr cfg hff s1 s2 hs1 hs2 fs [] [] rfl
    cases h1 : loopFields cfg s1 fs [] with
    | nil =>
      have h2 : loopFields cfg s2 fs [] = [] := by
        rw [h1] at hl
        simpa using hl.symm
      simp [nestedErrs, validateWithReflection, h1, h2]
    | cons e es =>
      cases h2 : loopFields cfg s2 fs [] with
      | nil =>
        rw [h1, h2] at hl
        simp at hl
      | cons e2 es2 =>
        simp [nestedErrs, validateWithReflection, h1, h2]
  | name, .vPtr (.vStr s) => by simp [nestedErrs]
  | name, .vPtr (.vInt n) => by simp [nestedErrs]
  | name, .vPtr (.vUint n) => by simp [nestedErrs]
  | name, .vPtr (.vFloat q) => by simp [nestedErrs]
  | name, .vPtr (.vBool b) => by simp [nestedErrs]
  | name, .vPtr .vNil => by simp [nestedErrs]
  | name, .vPtr (.vSlice l) => by simp [nestedErrs]
  | name, .vPtr (.vPtr v) => by simp [nestedErrs]

end

/-- C7 (counterexample): the identity and the reversed enumerations are
both admissible iteration orders of the rules map parsed from
`"minlen=5,maxlen=2"`; validating the same nested value twice under the
same collect-all policy merges the inner field's two errors into one
message in iteration order, so the two collections differ in content, not
merely in order (Go randomizes map iteration per `range`). -/
theorem revalidation_contents_counterexample :
    (sched0 "Name" (parseValidationRules "minlen=5,maxlen=2")).Perm
        (parseValidationRules "minlen=5,maxlen=2") ∧
    (schedRev "Name" (parseValidationRules "minlen=5,maxlen=2")).Perm
        (parseValidationRules "minlen=5,maxlen=2") ∧
    validateWithReflection ⟨false, false⟩ sched0
        (.vStruct (.cons "Inner" ""
          (.vStruct (.cons "Name" "minlen=5,maxlen=2" (.vStr "abc") .nil)) .nil))
      = .error (.verrs [⟨"Inner",
          "validation failed: field 'Name' must be at most 2 characters/elements long; field 'Name' must be at least 5 characters/elements long"⟩]) ∧
    validateWithReflection ⟨false, false⟩ schedRev
        (.vStruct (.cons "Inner" ""
          (.vStruct (.cons "Name" "minlen=5,maxlen=2" (.vStr "abc") .nil)) .nil))
      = .error (.verrs [⟨"Inner",
          "validation failed: field 'Name' must be at least 5 characters/elements long; field 'Name' must be at most 2 characters/elements long"⟩]) ∧
    ("validation failed: field 'Name' must be at most 2 characters/elements long; field 'Name' must be at least 5 characters/elements long"
      ≠ "validation failed: field 'Name' must be at least 5 characters/elements long; field 'Name' must be at most 2 characters/elements long") := by
  refine ⟨by decide, by decide, by rfl, by rfl, by decide⟩

/-- C7 (amended): validating the same value twice (same validator, same
policy) need not produce collections with identical contents or ordering:
each field's rules map iterates in an unspecified order, so errors within a
field may permute and a nested composite's inner errors are merged into a
single message whose text varies with the order (see the counterexample).
What the two runs do agree on, across any two admissible iteration orders
with fail-fast disabled: success versus failure, and the ordered sequence
of field attributions of the collected errors (hence also their number). -/
theorem revalidation_field_attribution :
    ∀ (cfg : VConfig), cfg.failFast = false →
    ∀ (s1 s2 : Sched), FaithfulSched s1 → FaithfulSched s2 →
    ∀ v : Value,
      resultOk (validateWithReflection cfg s1 v)
        = resultOk (validateWithReflection cfg s2 v) ∧
      fieldsOfResult (validateWithReflection cfg s1 v)
        = fieldsOfResult (validateWithReflection cfg s2 v) := by
  intro cfg hff s1 s2 hs1 hs2 v
  cases v with
  | vStruct fs =>
    have hl := loopFields_attr cfg hff s1 s2 hs1 hs2 fs [] [] rfl
    cases h1 : loopFields cfg s1 fs [] with
    | nil =>
      have h2 : loopFields cfg s2 fs [] = [] := by
        rw [h1] at hl
        simpa using hl.symm
      simp [validateWithReflection, h1, h2, resultOk, fieldsOfResult]
    | cons e es =>
      cases h2 : loopFields cfg s2 fs [] with
      | nil =>
        rw [h1, h2] at hl
        simp at hl
      | cons e2 es2 =>
        rw [h1, h2] at hl
        simp only [validateWithReflection, h1, h2, resultOk, fieldsOfResult]
        exact ⟨trivial, hl⟩
  | vPtr inner =>
    cases inner with
    | vStruct fs =>
      have hl := loopFields_attr cfg hff s1 s2 hs1 hs2 fs [] [] rfl
      cases h1 : loopFields cfg s1 fs [] with
      | nil =>
        have h2 : loopFields cfg s2 fs [] = [] := by
          rw [h1] at hl
          simpa using hl.symm
        simp [validateWithReflection, h1, h2, resultOk, fieldsOfResult]
      | cons e es =>
        cases h2 : loopFields cfg s2 fs [] with
        | nil =>
          rw [h1, h2] at hl
          simp at hl
        | cons e2 es2 =>
          rw [h1, h2] at hl
          simp only [validateWithReflection, h1, h2, resultOk, fieldsOfResult]
          exact ⟨trivial, hl⟩
    | vStr s => simp [validateWithReflection, resultOk, fieldsOfResult]
    | vInt n => simp [validateWithReflection, resultOk, fieldsOfResult]
    | vUint n => simp [validateWithReflection, resultOk, fieldsOfResult]
    | vFloat q => simp [validateWithReflection, resultOk, fieldsOfResult]
    | vBool b => simp [validateWithReflection, resultOk, fieldsOfResult]
    | vNil => simp [validateWithReflection, resultOk, fieldsOfResult]
    | vSlice l => simp [validateWithReflection, resultOk, fieldsOfResult]
    | vPtr w => simp [validateWithReflection, resultOk, fieldsOfResult]
  | vStr s => simp [validateWithReflection, resultOk, fieldsOfResult]
  | vInt n => simp [validateWithReflection, resultOk, fieldsOfResult]
  | vUint n => simp [validateWithReflection, resultOk, fieldsOfResult]
  | vFloat q => simp [validateWithReflection, resultOk, fieldsOfResult]
  | vBool b => simp [validateWithReflection, resultOk, fieldsOfResult]
  | vNil => simp [validateWithReflection, resultOk, fieldsOfResult]
  | vSlice l => simp [validateWithReflection, resultOk, fieldsOfResult]

/-- Witness for C7 (amended): the nested value of the counterexample under
the identity and the reversed iteration orders — both runs fail, and both
attribute their single (differently worded) error to `Inner`. -/
theorem revalidation_field_attribution_witness :
    resultOk (validateWithReflection ⟨false, false⟩ sched0
        (.vStruct (.cons "Inner" ""
          (.vStruct (.cons "Name" "minlen=5,maxlen=2" (.vStr "abc") .nil)) .nil)))
      = resultOk (validateWithReflection ⟨false, false⟩ schedRev
        (.vStruct (.cons "Inner" ""
          (.vStruct (.cons "Name" "minlen=5,maxlen=2" (.vStr "abc") .nil)) .nil))) ∧
    fieldsOfResult (validateWithReflection ⟨false, false⟩ sched0
        (.vStruct (.cons "Inner" ""
          (.vStruct (.cons "Name" "minlen=5,maxlen=2" (.vStr "abc") .nil)) .nil)))
      = fieldsOfResult (validateWithReflection ⟨false, false⟩ schedRev
        (.vStruct (.cons "Inner" ""
          (.vStruct (.cons "Name" "minlen=5,maxlen=2" (.vStr "abc") .nil)) .nil))) :=
  revalidation_field_attribution ⟨false, false⟩ rfl sched0 schedRev
    (fun _ rs => List.Perm.refl rs) (fun _ rs => rs.reverse_perm)
    (.vStruct (.cons "Inner" ""
      (.vStruct (.cons "Name" "minlen=5,maxlen=2" (.vStr "abc") .nil)) .nil))

/-- C4: when the `omitempty` marker is present and the field's current value
is empty (`!HasValue`: zero-length string/collection, nil pointer, or
zero-value scalar), the modelled engine evaluates exactly the rules whose
name begins with `required`, and no others. -/
theorem omitempty_gating :
    ∀ (parent : Value) (fieldName : String) (v : Value) (tag : String),
      (specOrderedConstraintDecl tag).any (fun r => r.1 = "omitempty") = true →
      HasValue ⟨parent, v, fieldName, ""⟩ = false →
      validateFieldModelled parent fieldName v tag =
        ((specOrderedConstraintDecl tag).filter
            (fun r => strStarts "required" r.1)).filterMap
          (evalRuleModelled parent fieldName v) := by
  intro parent fieldName v tag hmark hempty
  unfold validateFieldModelled
  simp only [hmark, hempty, Bool.not_false, Bool.and_true, if_true]

/-- Witness for C4: field tag `omitempty,min=3,required_if=Other:yes` with
sibling `Other = "yes"`.  On the empty string the `min` rule is skipped (no
length error) while `required_if` still executes and reports its failure;
on the non-empty but too-short `"ab"` exactly one `min` error results. -/
theorem omitempty_gating_witness :
    validateFieldModelled (.vStruct (.cons "Other" "" (.vStr "yes") .nil)) "F" (.vStr "")
        "omitempty,min=3,required_if=Other:yes"
      = [⟨"F", "field 'F' failed validation 'required_if'"⟩] ∧
    validateFieldModelled (.vStruct (.cons "Other" "" (.vStr "yes") .nil)) "F" (.vStr "ab")
        "omitempty,min=3,required_if=Other:yes"
      = [⟨"F", "field 'F' failed validation 'min'"⟩] := by
  constructor
  · rw [omitempty_gating (.vStruct (.cons "Other" "" (.vStr "yes") .nil)) "F" (.vStr "")
      "omitempty,min=3,required_if=Other:yes" (by decide) (by decide)]
    decide
  · decide

/-- Under fail-fast, a field whose iteration order names only registered
rules contributes no error or exactly one, attributed to that field. -/
theorem vfwr_failfast_shape (cfg : VConfig) (hff : cfg.failFast = true)
    (fieldName : String) (v : Value) :
    ∀ ord : List (String × String),
      (∀ p ∈ ord, (reflectionGetValidator p.1).isSome = true) →
      validateFieldWithReflection cfg fieldName v ord = [] ∨
      ∃ m, validateFieldWithReflection cfg fieldName v ord = [⟨fieldName, m⟩] := by
  intro ord
  induction ord with
  | nil => intro _; exact Or.inl rfl
  | cons hd tl ih =>
    intro hknown
    obtain ⟨rn, rv⟩ := hd
    have hhd := hknown (rn, rv) (List.mem_cons_self _ _)
    unfold validateFieldWithReflection
    cases hv : reflectionGetValidator rn with
    | none => rw [hv] at hhd; exact absurd hhd (by simp)
    | some vf =>
      cases hm : vf fieldName v rv with
      | some msg =>
        simp only [hm, hff, if_true]
        exact Or.inr ⟨msg, rfl⟩
      | none =>
        simp only [hm]
        exact ih (fun p hp => hknown p (List.mem_cons_of_mem _ hp))

/-- A non-composite field value contributes no nested-recursion errors. -/
theorem nestedErrs_of_not_composite (cfg : VConfig) (sched : Sched)
    (name : String) (v : Value) (h : isCompositeField v = false) :
    nestedErrs cfg sched name v = [] := by
  cases v with
  | vStr s => simp [nestedErrs]
  | vInt n => simp [nestedErrs]
  | vUint n => simp [nestedErrs]
  | vFloat q => simp [nestedErrs]
  | vBool b => simp [nestedErrs]
  | vNil => simp [nestedErrs]
  | vSlice l => simp [nestedErrs]
  | vPtr inner => cases inner <;> simp_all [isCompositeField, nestedErrs]
  | vStruct fs => simp [isCompositeField] at h

/-- C3: with fail-fast enabled, a struct whose three (non-composite) fields
each violate their declared, registered constraints yields exactly one
error, attributed to the first field in declaration order, and no field
after the first is visited — replacing the later fields by anything at all
gives the same outcome as validating the first field alone. -/
theorem failfast_first_violating_field :
    ∀ (cfg : VConfig), cfg.failFast = true →
    ∀ (sched : Sched), FaithfulSched sched →
    ∀ (n1 t1 : String) (v1 : Value) (n2 t2 : String) (v2 : Value)
      (n3 t3 : String) (v3 : Value),
      isCompositeField v1 = false → isCompositeField v2 = false →
      isCompositeField v3 = false →
      (∀ p ∈ sched n1 (parseValidationRules t1),
        (reflectionGetValidator p.1).isSome = true) →
      validateFieldWithReflection cfg n1 v1 (sched n1 (parseValidationRules t1)) ≠ [] →
      validateFieldWithReflection cfg n2 v2 (sched n2 (parseValidationRules t2)) ≠ [] →
      validateFieldWithReflection cfg n3 v3 (sched n3 (parseValidationRules t3)) ≠ [] →
      (∃ m, validateWithReflection cfg sched
          (.vStruct (.cons n1 t1 v1 (.cons n2 t2 v2 (.cons n3 t3 v3 .nil))))
        = .error (.verrs [⟨n1, m⟩])) ∧
      (∀ (g2n g2t : String) (g2v : Value) (g3n g3t : String) (g3v : Value),
        validateWithReflection cfg sched
            (.vStruct (.cons n1 t1 v1 (.cons g2n g2t g2v (.cons g3n g3t g3v .nil))))
          = validateWithReflection cfg sched (.vStruct (.cons n1 t1 v1 .nil))) := by
  intro cfg hff sched hsched n1 t1 v1 n2 t2 v2 n3 t3 v3 hc1 hc2 hc3 hknown1 hviol1 hviol2 hviol3
  by_cases ht1 : t1 = ""
  · exfalso
    apply hviol1
    have hrules : parseValidationRules t1 = [] := by rw [ht1]; decide
    have hord : sched n1 (parseValidationRules t1) = [] := by
      rw [hrules]
      exact (hsched n1 []).eq_nil
    rw [hord]
    rfl
  · obtain hshape := vfwr_failfast_shape cfg hff n1 v1
      (sched n1 (parseValidationRules t1)) hknown1
    obtain ⟨m, hm⟩ := hshape.resolve_left hviol1
    have hloop : ∀ rest : FieldList,
        loopFields cfg sched (.cons n1 t1 v1 rest) [] = [⟨n1, m⟩] := by
      intro rest
      rw [loopFields_cons_eq, if_neg ht1]
      simp [hm, nestedErrs_of_not_composite cfg sched n1 v1 hc1, hff]
    refine ⟨⟨m, ?_⟩, ?_⟩
    · unfold validateWithReflection
      rw [hloop]
    · intro g2n g2t g2v g3n g3t g3v
      unfold validateWithReflection
      rw [hloop, hloop]

/-- Witness for C3: three string fields `A`, `B`, `C`, each tagged
`required` and empty, validated under fail-fast with the identity iteration
order: exactly one error on `A`, and the outcome ignores the later
fields. -/
theorem failfast_first_violating_field_witness :
    (∃ m, validateWithReflection ⟨true, false⟩ sched0
        (.vStruct (.cons "A" "required" (.vStr "")
          (.cons "B" "required" (.vStr "") (.cons "C" "required" (.vStr "") .nil))))
      = .error (.verrs [⟨"A", m⟩])) ∧
    validateWithReflection ⟨true, false⟩ sched0
        (.vStruct (.cons "A" "required" (.vStr "")
          (.cons "B" "minlen=99" (.vInt 7) (.cons "C" "oneof=x|y" (.vBool true) .nil))))
      = validateWithReflection ⟨true, false⟩ sched0
        (.vStruct (.cons "A" "required" (.vStr "") .nil)) := by
  have h := failfast_first_violating_field ⟨true, false⟩ rfl sched0
    (fun n rs => List.Perm.refl rs)
    "A" "required" (.vStr "") "B" "required" (.vStr "") "C" "required" (.vStr "")
    rfl rfl rfl (by decide) (by decide) (by decide) (by decide)
  exact ⟨h.1, h.2 "B" "minlen=99" (.vInt 7) "C" "oneof=x|y" (.vBool true)⟩

/-- Strings with equal character data are equal. -/
theorem strEqOfDataEq {a b : String} (h : a.data = b.data) : a = b :=
  String.ext h

/-- Strictly ordered character data separates strings. -/
theorem strNeOfDataLt {a b : String} (h : a.data < b.data) : a ≠ b := by
  intro he
  subst he
  exact lt_irrefl _ h

/-- Inserting two distinct keys commutes (the order the two map assignments
happen in does not matter). -/
theorem mapInsert_comm_lt {k k' : String} (h3 : k.data < k'.data) (v v' : String) :
    ∀ m, mapInsert k v (mapInsert k' v' m) = mapInsert k' v' (mapInsert k v m) := by
  have hkk : k ≠ k' := strNeOfDataLt h3
  intro m
  induction m with
  | nil =>
    simp [mapInsert, h3, lt_asymm h3, Ne.symm hkk]
  | cons hd tl ih =>
    obtain ⟨k2, v2⟩ := hd
    rcases lt_trichotomy k.data k2.data with h1 | h1 | h1 <;>
      rcases lt_trichotomy k'.data k2.data with h2 | h2 | h2
    · simp [mapInsert, h1, h2, h3, lt_asymm h3, Ne.symm hkk]
    · have hk2 : k' = k2 := strEqOfDataEq h2
      subst hk2
      simp [mapInsert, h1, h3, lt_asymm h3, Ne.symm hkk, lt_irrefl]
    · have hne2 : k' ≠ k2 := fun he => absurd (he ▸ h2) (lt_irrefl _)
      simp [mapInsert, h1, h2, h3, lt_asymm h2, lt_asymm h3, Ne.symm hkk, hne2]
    · have hk2 : k = k2 := strEqOfDataEq h1
      subst hk2
      exact absurd h2 (lt_asymm h3)
    · exact absurd (strEqOfDataEq h1) (fun he => hkk (he.trans (strEqOfDataEq h2).symm))
    · have hk2 : k = k2 := strEqOfDataEq h1
      subst hk2
      have hne2 : k' ≠ k := fun he => absurd (he ▸ h2) (lt_irrefl _)
      simp [mapInsert, lt_asymm h2, hne2, lt_irrefl]
    · exact absurd (lt_trans h2 h1) (lt_asymm h3)
    · have hk2 : k' = k2 := strEqOfDataEq h2
      subst hk2
      exact absurd h1 (lt_asymm h3)
    · have hnek : k ≠ k2 := fun he => absurd (he ▸ h1) (lt_irrefl _)
      have hnek' : k' ≠ k2 := fun he => absurd (he ▸ h2) (lt_irrefl _)
      simp [mapInsert, lt_asymm h1, lt_asymm h2, hnek, hnek', ih]

/-- `mapInsert` for every pair of distinct keys commutes. -/
theorem mapInsert_comm {k k' : String} (hkk : k ≠ k') (v v' : String) :
    ∀ m, mapInsert k v (mapInsert k' v' m) = mapInsert k' v' (mapInsert k v m) := by
  intro m
  rcases lt_trichotomy k.data k'.data with h | h | h
  · exact mapInsert_comm_lt h v v' m
  · exact absurd (strEqOfDataEq h) hkk
  · exact (mapInsert_comm_lt h v' v m).symm

/-- The fold over raw comma segments equals the assignment fold over the
parsed segment list. -/
theorem foldl_segments_eq (parts : List String) :
    ∀ acc : List (String × String),
      parts.foldl
          (fun acc part =>
            match parseSegment part with
            | none => acc
            | some (k, v) => mapInsert k v acc)
          acc
        = insertAll acc (parts.filterMap parseSegment) := by
  induction parts with
  | nil => intro acc; rfl
  | cons hd tl ih =>
    intro acc
    rw [List.foldl_cons, List.filterMap_cons]
    cases hs : parseSegment hd with
    | none => exact ih acc
    | some kv =>
      obtain ⟨k, v⟩ := kv
      exact ih (mapInsert k v acc)

/-- The parse loop is the assignment fold over the ordered segment list. -/
theorem parse_eq_insertAll (tag : String) :
    parseValidationRules tag = insertAll [] (specOrderedConstraintDecl tag) :=
  foldl_segments_eq (goSplit tag ',') []

/-- Folding assignments with pairwise-distinct names is insensitive to the
order of the assignments. -/
theorem insertAll_perm_eq {l1 l2 : List (String × String)} (h : l1.Perm l2) :
    (l1.map Prod.fst).Nodup → ∀ acc, insertAll acc l1 = insertAll acc l2 := by
  induction h with
  | nil => intro _ _; rfl
  | cons x h ih =>
    intro hnd acc
    have hnd' : (List.map Prod.fst _).Nodup := (List.nodup_cons.mp hnd).2
    exact ih hnd' (mapInsert x.1 x.2 acc)
  | swap x y l =>
    intro hnd acc
    have hne : y.1 ≠ x.1 := by
      have := (List.nodup_cons.mp hnd).1
      intro he
      exact this (by simp [he])
    show insertAll (mapInsert x.1 x.2 (mapInsert y.1 y.2 acc)) l
        = insertAll (mapInsert y.1 y.2 (mapInsert x.1 x.2 acc)) l
    rw [mapInsert_comm (Ne.symm hne) x.2 y.2 acc]
  | trans h1 h2 ih1 ih2 =>
    intro hnd acc
    rw [ih1 hnd acc]
    exact ih2 (((h1.map Prod.fst).nodup_iff).mp hnd) acc

/-- A key in the inserted map is the new key or one of the old keys. -/
theorem keys_mapInsert (k v : String) :
    ∀ (m : List (String × String)) (x : String),
      x ∈ (mapInsert k v m).map Prod.fst → x = k ∨ x ∈ m.map Prod.fst := by
  intro m
  induction m with
  | nil => intro x hx; simp [mapInsert] at hx; exact Or.inl hx
  | cons hd tl ih =>
    obtain ⟨k2, v2⟩ := hd
    intro x hx
    by_cases hlt : k.data < k2.data
    · unfold mapInsert at hx
      rw [if_pos hlt] at hx
      simp only [List.map_cons, List.mem_cons] at hx ⊢
      tauto
    · by_cases heq : k = k2
      · unfold mapInsert at hx
        rw [if_neg hlt, if_pos heq] at hx
        simp only [List.map_cons, List.mem_cons] at hx ⊢
        tauto
      · unfold mapInsert at hx
        rw [if_neg hlt, if_neg heq] at hx
        simp only [List.map_cons, List.mem_cons] at hx ⊢
        rcases hx with h | h
        · tauto
        · rcases ih x h with h' | h' <;> tauto

/-- Inserting a fresh key permutes to consing it. -/
theorem mapInsert_perm_cons (k v : String) :
    ∀ m : List (String × String), k ∉ m.map Prod.fst →
      (mapInsert k v m).Perm ((k, v) :: m) := by
  intro m
  induction m with
  | nil => intro _; exact List.Perm.refl _
  | cons hd tl ih =>
    obtain ⟨k2, v2⟩ := hd
    intro hk
    have hne : k ≠ k2 := by intro he; exact hk (by simp [he])
    have htl : k ∉ tl.map Prod.fst := by
      intro hm; exact hk (by simp [hm])
    by_cases hlt : k.data < k2.data
    · unfold mapInsert
      rw [if_pos hlt]
    · unfold mapInsert
      rw [if_neg hlt, if_neg hne]
      exact ((ih htl).cons (k2, v2)).trans (List.Perm.swap (k, v) (k2, v2) tl)

/-- Folding pairwise-distinct fresh assignments into a map yields a
permutation of the assignment list. -/
theorem insertAll_perm_append :
    ∀ (l acc : List (String × String)),
      (l.map Prod.fst).Nodup →
      (∀ x ∈ l.map Prod.fst, x ∉ acc.map Prod.fst) →
      (insertAll acc l).Perm (l ++ acc) := by
  intro l
  induction l with
  | nil => intro acc _ _; exact List.Perm.refl _
  | cons x tl ih =>
    intro acc hnd hdisj
    have hx : x.1 ∉ acc.map Prod.fst := hdisj x.1 (by simp)
    have hnd' := (List.nodup_cons.mp hnd).2
    have hdisj' : ∀ y ∈ tl.map Prod.fst, y ∉ (mapInsert x.1 x.2 acc).map Prod.fst := by
      intro y hy hmem
      rcases keys_mapInsert x.1 x.2 acc y hmem with h | h
      · exact (List.nodup_cons.mp hnd).1 (h ▸ hy)
      · exact hdisj y (by simp [hy]) h
    have step : (insertAll (mapInsert x.1 x.2 acc) tl).Perm (tl ++ mapInsert x.1 x.2 acc) :=
      ih (mapInsert x.1 x.2 acc) hnd' hdisj'
    have bump : (tl ++ mapInsert x.1 x.2 acc).Perm (tl ++ (x :: acc)) :=
      (mapInsert_perm_cons x.1 x.2 acc hx).append_left tl
    exact (step.trans (bump.trans List.perm_middle)).trans (List.Perm.refl _)

/-- C1 (counterexample): two tags declaring the same two rules in opposite
orders parse to the same rules map — `parseValidationRules` returns a
`map[string]string`, so the parsed Constraint Declaration retains no
declaration order, and `validateFieldWithReflection`, which iterates that
map, cannot evaluate in tag-text order (the ordered readings of the two
tags differ). -/
theorem parse_order_counterexample :
    parseValidationRules "minlen=3,maxlen=5" = parseValidationRules "maxlen=5,minlen=3" ∧
    specOrderedConstraintDecl "minlen=3,maxlen=5" = [("minlen", "3"), ("maxlen", "5")] ∧
    specOrderedConstraintDecl "maxlen=5,minlen=3" = [("maxlen", "5"), ("minlen", "3")] ∧
    specOrderedConstraintDecl "minlen=3,maxlen=5"
      ≠ specOrderedConstraintDecl "maxlen=5,minlen=3" := by
  refine ⟨by decide, by decide, by decide, by decide⟩

/-- C1 (amended): the parsed Constraint Declaration is an unordered
name-to-parameter map: any reordering of the tag's comma segments (with
pairwise-distinct rule names) parses to the same map, which holds the same
`(name, parameter)` pairs as the ordered reading but forgets its order;
rule evaluation iterates this map in an unspecified order, not in
declaration order. -/
theorem parse_rules_unordered_map :
    ∀ tag1 tag2 : String,
      (specOrderedConstraintDecl tag1).Perm (specOrderedConstraintDecl tag2) →
      ((specOrderedConstraintDecl tag1).map Prod.fst).Nodup →
      parseValidationRules tag1 = parseValidationRules tag2 ∧
      (parseValidationRules tag1).Perm (specOrderedConstraintDecl tag1) := by
  intro t1 t2 hp hnd
  constructor
  · rw [parse_eq_insertAll, parse_eq_insertAll]
    exact insertAll_perm_eq hp hnd []
  · rw [parse_eq_insertAll]
    have h := insertAll_perm_append (specOrderedConstraintDecl t1) [] hnd (by simp)
    simpa using h

/-- Witness for C1 (amended): the two tags of the counterexample. -/
theorem parse_rules_unordered_map_witness :
    parseValidationRules "minlen=3,maxlen=5" = parseValidationRules "maxlen=5,minlen=3" ∧
    (parseValidationRules "minlen=3,maxlen=5").Perm
      (specOrderedConstraintDecl "minlen=3,maxlen=5") :=
  parse_rules_unordered_map "minlen=3,maxlen=5" "maxlen=5,minlen=3" (by decide) (by decide)

end Validation

